import Mathlib

/-!
Verification of the message-debounce and session-orchestration engine of the
`ncs-chatbot` LINE webhook service (`line-webhook/main.go`).

The Go source is shallowly embedded: each pure fragment becomes a Lean
function, stateful fragments become explicit state passing, and the places
where the code performs network I/O are parametrised by oracles describing
the remote side's responses.  Go strings are modelled as `String` / `List
Char`; Go byte lengths of UTF-8 strings are modelled by summing
`Char.utf8Size`.
-/

set_option maxHeartbeats 1000000

namespace NCS

/-! ### Go string helpers (strings.Contains, strings.Fields, strings.TrimSpace…) -/

/-- Modelled after `strings.HasPre...` behaviour: `isPrefOf pat l` is true when
`pat` occurs at the head of `l`. -/
def isPrefOf : List Char → List Char → Bool
  | [], _ => true
  | _ :: _, [] => false
  | a :: as, b :: bs => a == b && isPrefOf as bs

/-- Embedding of Go `strings.Contains(hay, needle)` on decoded rune lists
(UTF-8 is self-synchronising, so byte-level substring search coincides with
rune-level search). -/
def containsSub : List Char → List Char → Bool
  | [], needle => needle.isEmpty
  | c :: rest, needle => isPrefOf needle (c :: rest) || containsSub rest needle

/-- Embedding of Go `unicode.IsSpace` restricted to the ASCII whitespace
characters (space, tab, newline, vertical tab, form feed, carriage return). -/
def goIsSpace (c : Char) : Bool :=
  c == ' ' || c == '\t' || c == '\n' || c == '\r' ||
  c == Char.ofNat 11 || c == Char.ofNat 12

/-- Byte length of a decoded string, as Go `len(s)` computes it on UTF-8. -/
def byteLen (l : List Char) : Nat := (l.map Char.utf8Size).sum

/-- Embedding of Go `strings.TrimSpace`. -/
def trimSpace (l : List Char) : List Char :=
  ((l.dropWhile goIsSpace).reverse.dropWhile goIsSpace).reverse

/-- Helper for `goFields`: `acc` holds the characters of the word currently
being read, in reverse. -/
def goFieldsAux : List Char → List Char → List (List Char)
  | [], acc => if acc = [] then [] else [acc.reverse]
  | c :: rest, acc =>
    if goIsSpace c then
      if acc = [] then goFieldsAux rest [] else acc.reverse :: goFieldsAux rest []
    else goFieldsAux rest (c :: acc)

/-- Embedding of Go `strings.Fields`: split on runs of whitespace. -/
def goFields (l : List Char) : List (List Char) := goFieldsAux l []

/-! ### Turn Debouncer (webhook handler closure, `main.go` lines 204–244)

The per-user buffer slot of `userMsgBuffer` together with the pending
`time.AfterFunc` handle of `userMsgTimer` is modelled as one state.  The
timer handle is represented by its absolute expiry instant: `time.AfterFunc`
arms a timer for `now + 15s`, and `timer.Stop()` followed by re-arming is
modelled by overwriting the stored deadline.  A callback of a stopped timer
never runs in Go, which the model expresses by `fireTimerAt t` being a
no-op whenever `t` differs from the currently armed deadline. -/

/-- Debounce quiet window (seconds): `time.AfterFunc(15*time.Second, …)`. -/
def debounceWindow : Nat := 15

structure DebounceState where
  buffer : List String
  deadline : Option Nat
deriving DecidableEq

/-- One inbound message for a user at instant `tm.1` with content `tm.2`:
append to the buffer, stop any pending timer and arm a fresh 15 s timer
(`main.go` 204–242). -/
def onMessage (s : DebounceState) (tm : Nat × String) : DebounceState :=
  { buffer := s.buffer ++ [tm.2], deadline := some (tm.1 + debounceWindow) }

/-- Aggregation performed by the flush callback (`main.go` 228–235): a single
buffered message passes through verbatim; several are joined with
`fmt.Sprintf("สรุปคำถาม %d ข้อความจากลูกค้า: %v", len(msgs), msgs)`, where `%v`
renders a Go string slice as `[m1 m2 … mn]`. -/
def aggregateTurn (msgs : List String) : String :=
  match msgs with
  | [m] => m
  | _ => "สรุปคำถาม " ++ Nat.repr msgs.length ++ " ข้อความจากลูกค้า: [" ++
      String.intercalate " " msgs ++ "]"

/-- The `time.AfterFunc` callback (`main.go` 216–239), fired at instant `t`:
if the timer armed for `t` is still the current one, atomically take and
clear the buffer, drop the timer handle, and emit the aggregated turn
(nothing when the buffer is empty).  A stopped/replaced timer never runs. -/
def fireTimerAt (t : Nat) (s : DebounceState) : DebounceState × Option String :=
  if s.deadline = some t then
    if s.buffer = [] then ({ buffer := [], deadline := none }, none)
    else ({ buffer := [], deadline := none }, some (aggregateTurn s.buffer))
  else (s, none)

/-- Deliver a burst of timed messages to the debouncer, starting empty. -/
def debounceRun (tms : List (Nat × String)) : DebounceState :=
  tms.foldl onMessage { buffer := [], deadline := none }

/-- Timing relation between consecutive messages: the later one arrives
strictly after the earlier, and strictly within the quiet window. -/
def withinWindow (a b : Nat × String) : Prop :=
  a.1 < b.1 ∧ b.1 < a.1 + debounceWindow

instance : ∀ a b, Decidable (withinWindow a b) := fun a b =>
  inferInstanceAs (Decidable (a.1 < b.1 ∧ b.1 < a.1 + debounceWindow))

theorem foldl_onMessage_buffer (tms : List (Nat × String)) :
    ∀ s : DebounceState, (tms.foldl onMessage s).buffer = s.buffer ++ tms.map Prod.snd := by
  induction tms with
  | nil => intro s; simp
  | cons a rest ih =>
    intro s
    simp only [List.foldl_cons, List.map_cons, ih, onMessage]
    simp

theorem foldl_onMessage_deadline :
    ∀ (tms : List (Nat × String)), tms ≠ [] → ∀ (h : tms ≠ []) (s : DebounceState),
      (tms.foldl onMessage s).deadline = some ((tms.getLast h).1 + debounceWindow) := by
  intro tms
  induction tms with
  | nil => intro h; exact absurd rfl h
  | cons a rest ih =>
    intro _ h s
    cases rest with
    | nil => simp [onMessage]
    | cons b rest2 =>
      rw [List.foldl_cons, ih (by simp) (by simp)]
      conv_rhs => rw [List.getLast_cons (by simp : b :: rest2 ≠ [])]

theorem chain_head_lt_getLast :
    ∀ (l : List (Nat × String)) (a : Nat × String) (hl : l ≠ []),
      List.Chain' withinWindow (a :: l) → a.1 < (l.getLast hl).1 := by
  intro l
  induction l with
  | nil => intro a hl; exact absurd rfl hl
  | cons b rest ih =>
    intro a hl hc
    have hab : withinWindow a b := (List.chain'_cons.mp hc).1
    have hrest : List.Chain' withinWindow (b :: rest) := (List.chain'_cons.mp hc).2
    cases rest with
    | nil => simpa using hab.1
    | cons c rest2 =>
      rw [List.getLast_cons (by simp)]
      exact lt_trans hab.1 (ih b (by simp) hrest)

/-- C1: for a burst of messages from one user in which each message arrives
strictly within the 15 s quiet window of the previous one, the debouncer
emits exactly one aggregated turn: the buffer holds every message exactly
once in arrival order, the last armed timer flushes it as one turn, the
flushed state emits nothing further, every earlier (replaced) timer is a
no-op, a single buffered message is passed through verbatim, and several
buffered messages are joined in order behind the summary indication. -/
theorem debouncer_emits_single_ordered_turn
    (tms : List (Nat × String)) (hne : tms ≠ [])
    (hchain : List.Chain' withinWindow tms) :
    (debounceRun tms).buffer = tms.map Prod.snd
    ∧ (fireTimerAt ((tms.getLast hne).1 + debounceWindow) (debounceRun tms)).2
        = some (aggregateTurn (tms.map Prod.snd))
    ∧ (fireTimerAt ((tms.getLast hne).1 + debounceWindow) (debounceRun tms)).1
        = { buffer := [], deadline := none }
    ∧ (∀ t, (fireTimerAt t { buffer := [], deadline := none }).2 = none)
    ∧ (∀ pre a mid rest, tms = pre ++ a :: mid ++ rest → mid ≠ [] →
        fireTimerAt (a.1 + debounceWindow) (debounceRun (pre ++ a :: mid))
          = (debounceRun (pre ++ a :: mid), none))
    ∧ (∀ m, aggregateTurn [m] = m)
    ∧ (∀ msgs : List String, 2 ≤ msgs.length →
        aggregateTurn msgs
          = "สรุปคำถาม " ++ Nat.repr msgs.length ++ " ข้อความจากลูกค้า: [" ++
              String.intercalate " " msgs ++ "]") := by
  have hbuf : (debounceRun tms).buffer = tms.map Prod.snd := by
    simpa using foldl_onMessage_buffer tms { buffer := [], deadline := none }
  have hdl : (debounceRun tms).deadline = some ((tms.getLast hne).1 + debounceWindow) :=
    foldl_onMessage_deadline tms hne hne _
  have hbne : (debounceRun tms).buffer ≠ [] := by
    rw [hbuf]
    simpa using hne
  refine ⟨hbuf, ?_, ?_, ?_, ?_, ?_, ?_⟩
  · rw [fireTimerAt, if_pos hdl, if_neg hbne, hbuf]
  · rw [fireTimerAt, if_pos hdl, if_neg hbne]
  · intro t
    rw [fireTimerAt]
    simp
  · intro pre a mid rest heq hmidne
    have hmidchain : List.Chain' withinWindow (a :: mid) := by
      have h1 : List.Chain' withinWindow (pre ++ ((a :: mid) ++ rest)) := by
        simpa [heq] using hchain
      exact ((List.chain'_append.mp ((List.chain'_append.mp h1).2.1)).1)
    have hlt : a.1 < (mid.getLast hmidne).1 :=
      chain_head_lt_getLast mid a hmidne hmidchain
    have hne2 : pre ++ a :: mid ≠ [] := by simp
    have hdl2 : (debounceRun (pre ++ a :: mid)).deadline
        = some (((pre ++ a :: mid).getLast hne2).1 + debounceWindow) :=
      foldl_onMessage_deadline _ hne2 hne2 _
    have hgl : (pre ++ a :: mid).getLast hne2 = mid.getLast hmidne := by
      rw [List.getLast_append' pre (a :: mid) (by simp)]
      exact List.getLast_cons hmidne
    rw [fireTimerAt, if_neg]
    rw [hdl2, hgl]
    intro hcontra
    have : (mid.getLast hmidne).1 = a.1 := by
      have := Option.some.inj hcontra
      omega
    omega
  · intro m; rfl
  · intro msgs hlen
    match msgs with
    | [] => simp at hlen
    | [m] => simp at hlen
    | a :: b :: rest => rfl

/-- C1 witness: three messages at seconds 0, 3 and 10 (each gap below 15 s)
flush as the single summary turn over `[m1, m2, m3]`. -/
theorem debouncer_emits_single_ordered_turn_witness :
    (fireTimerAt (10 + debounceWindow)
        (debounceRun [(0, "m1"), (3, "m2"), (10, "m3")])).2
      = some (aggregateTurn ["m1", "m2", "m3"]) :=
  (debouncer_emits_single_ordered_turn [(0, "m1"), (3, "m2"), (10, "m3")]
    (by decide)
    (by
      show List.Chain withinWindow (0, "m1") [(3, "m2"), (10, "m3")]
      exact .cons (by decide) (.cons (by decide) .nil))).2.1

/-! ### Error classifier (`isErrorResponse`, `main.go` 314–343) -/

/-- The keyword list of `isErrorResponse` (`main.go` 315–329). -/
def errorKeywords : List String :=
  ["Error ", "Failed to ", "not configured", "not set", "Error creating",
   "Error running", "Error sending", "Error getting", "Error calling",
   "ขออภัย ระบบมีปัญหา", "เกิดข้อผิดพลาด", "ไม่สามารถ", "พบข้อผิดพลาด"]

/-- Embedding of `isErrorResponse` (`main.go` 314–343): keyword containment,
then `len(strings.TrimSpace(response)) < 10` on the UTF-8 byte length. -/
def isErrorResponse (response : String) : Bool :=
  errorKeywords.any (fun k => containsSub response.data k.data) ||
  decide (byteLen (trimSpace response.data) < 10)

/-! ### Duplicate-Answer Cache (`userLastQAMap`)

`userLastQAMap[user]` is modelled as `Option (String × String)` (last
question, last answer) for the one user under consideration; `none` means no
entry.  `readCache` embeds the read path (`main.go` 347–359), `replyDecision`
the cache-or-return decision at the end of reply extraction (`main.go`
888–904). -/

/-- Read path (`main.go` 347–359): the cached answer is returned only when
the entry exists, the question matches, the answer is non-empty and the
answer is not classified as an error. -/
def readCache (qa : Option (String × String)) (q : String) : Option String :=
  match qa with
  | none => none
  | some (lq, la) =>
    if lq = q ∧ la ≠ "" ∧ isErrorResponse la = false then some la else none

/-- Cache-or-return decision (`main.go` 888–904): a non-empty non-error reply
is stored and returned; a non-empty error reply is returned without storing;
an empty reply yields no decision at this point (the extraction loop moves
on). -/
def replyDecision (qa : Option (String × String)) (q r : String) :
    Option (String × String) × Option String :=
  if r ≠ "" ∧ isErrorResponse r = false then (some (q, r), some r)
  else if r ≠ "" then (qa, some r)
  else (qa, none)

/-- Cache state after a turn whose extracted reply is `r`. -/
def cacheWrite (qa : Option (String × String)) (q r : String) :
    Option (String × String) :=
  (replyDecision qa q r).1

/-- C9: a reply is classified as an error exactly when it contains one of
the listed failure keywords or its trimmed UTF-8 byte length is below 10
(which covers the empty reply); an error-classified reply is never stored in
the duplicate-answer cache, yet a non-empty one is still handed back to the
user unchanged. -/
theorem error_reply_classified_never_cached_still_returned
    (r q : String) (qa : Option (String × String)) :
    (isErrorResponse r = true ↔
      ((∃ k ∈ errorKeywords, containsSub r.data k.data = true) ∨
        byteLen (trimSpace r.data) < 10))
    ∧ (r = "" → isErrorResponse r = true)
    ∧ (isErrorResponse r = true → (replyDecision qa q r).1 = qa)
    ∧ (r ≠ "" → (replyDecision qa q r).2 = some r) := by
  refine ⟨?_, ?_, ?_, ?_⟩
  · simp [isErrorResponse, List.any_eq_true]
  · intro hr
    subst hr
    decide
  · intro herr
    rw [replyDecision]
    rw [if_neg (by simp [herr])]
    split <;> rfl
  · intro hne
    rw [replyDecision]
    by_cases herr : isErrorResponse r = false
    · rw [if_pos ⟨hne, herr⟩]
    · rw [if_neg (by simp [herr]), if_pos hne]

/-- C9 witness: the reply "Error running assistant." is classified as an
error, is not written into a populated cache, and is still returned as-is. -/
theorem error_reply_classified_never_cached_still_returned_witness :
    ((replyDecision (some ("q0", "a0")) "q" "Error running assistant.").1
        = some ("q0", "a0"))
    ∧ ((replyDecision (some ("q0", "a0")) "q" "Error running assistant.").2
        = some "Error running assistant.") :=
  ⟨(error_reply_classified_never_cached_still_returned
      "Error running assistant." "q" (some ("q0", "a0"))).2.2.1 (by decide),
   (error_reply_classified_never_cached_still_returned
      "Error running assistant." "q" (some ("q0", "a0"))).2.2.2 (by decide)⟩

/-! ### Run Orchestrator poll loop (`main.go` 574–847)

Each iteration of `for i := 0; i < 60; i++` polls the run once.  A poll
observation is either a `requires_action` state carrying the outstanding
tool calls (each given by its `tool_call_id` and whether its function name
matches one of the six dispatched handlers), a plain status string, or a
transport error.  The loop state carries the source variables
`lastToolCallSignature` and `submittedToolOutputs` plus a log of the
batches of tool-call ids submitted and the number of polls performed.
Sleeps (`time.Sleep`) are irrelevant to the state and not modelled. -/

inductive PollObs where
  | ra (calls : List (String × Bool))
  | st (status : String)
  | perr
deriving DecidableEq

structure PollState where
  lastToolCallSignature : String
  submittedToolOutputs : Bool
  subs : List (List String)
  polls : Nat
deriving DecidableEq

/-- Signature of the outstanding tool calls: `strings.Join(ids, ",")`
(`main.go` 614–619). -/
def sigOf (calls : List (String × Bool)) : String :=
  String.intercalate "," (calls.map Prod.fst)

/-- The ids whose function name matched a dispatched handler; one output is
collected per matched call (`main.go` 626–817), unmatched names contribute
nothing. -/
def knownOutputs (calls : List (String × Bool)) : List String :=
  (calls.filter Prod.snd).map Prod.fst

inductive StepRes where
  | next (s : PollState)
  | halt (s : PollState)
  | errRet (msg : String)
deriving DecidableEq

/-- One iteration of the poll loop body (`main.go` 577–846): on
`requires_action` with outstanding calls, skip resubmission when the
signature was already submitted (620–625), otherwise submit the collected
outputs as one batch and record the signature (818–838); on a plain status,
clear the submitted guard when the status moved away from
`requires_action` (840–843) and stop on `completed` (844–846); a transport
error aborts the whole turn (583–585). -/
def pollStep (s : PollState) (o : PollObs) : StepRes :=
  match o with
  | .perr => .errRet "Error polling run status."
  | .ra calls =>
    if calls ≠ [] then
      let sig := sigOf calls
      if sig = s.lastToolCallSignature ∧ s.submittedToolOutputs then
        .next { s with polls := s.polls + 1 }
      else
        let outs := knownOutputs calls
        if outs ≠ [] then
          .next { lastToolCallSignature := sig, submittedToolOutputs := true,
                  subs := s.subs ++ [outs], polls := s.polls + 1 }
        else
          .next { s with polls := s.polls + 1 }
    else
      .next { s with polls := s.polls + 1 }
  | .st status =>
    let s1 := if status ≠ "requires_action"
      then { s with submittedToolOutputs := false, polls := s.polls + 1 }
      else { s with polls := s.polls + 1 }
    if status = "completed" then .halt s1 else .next s1

inductive PollExit where
  | completedExit
  | budgetExhausted
  | transportError (msg : String)
deriving DecidableEq

/-- The bounded poll loop; `obs i` is the observation of the `i`-th poll. -/
def pollLoop (obs : Nat → PollObs) : Nat → PollState → PollState × PollExit
  | 0, s => (s, .budgetExhausted)
  | fuel + 1, s =>
    match pollStep s (obs s.polls) with
    | .errRet m => ({ s with polls := s.polls + 1 }, .transportError m)
    | .halt s1 => (s1, .completedExit)
    | .next s1 => pollLoop obs fuel s1

def initPoll : PollState :=
  { lastToolCallSignature := "", submittedToolOutputs := false, subs := [], polls := 0 }

/-- The 60-iteration budget of `for i := 0; i < 60; i++` (`main.go` 577). -/
def runPollLoop (obs : Nat → PollObs) : PollState × PollExit :=
  pollLoop obs 60 initPoll

theorem pollStep_next_of_benign (s : PollState) (o : PollObs)
    (h1 : o ≠ .st "completed") (h2 : o ≠ .perr) :
    ∃ s1, pollStep s o = .next s1 ∧ s1.polls = s.polls + 1 := by
  cases o with
  | perr => exact absurd rfl h2
  | ra calls =>
    simp only [pollStep]
    split_ifs <;> exact ⟨_, rfl, rfl⟩
  | st status =>
    have hc : ¬(status = "completed") := fun h => h1 (by rw [h])
    simp only [pollStep]
    rw [if_neg hc]
    by_cases hreq : status ≠ "requires_action"
    · rw [if_pos hreq]; exact ⟨_, rfl, rfl⟩
    · rw [if_neg hreq]; exact ⟨_, rfl, rfl⟩

theorem pollLoop_polls_le (obs : Nat → PollObs) :
    ∀ (fuel : Nat) (s : PollState), (pollLoop obs fuel s).1.polls ≤ s.polls + fuel := by
  intro fuel
  induction fuel with
  | zero => intro s; simp [pollLoop]
  | succ f ih =>
    intro s
    rw [pollLoop]
    rcases ho : pollStep s (obs s.polls) with s1 | s1 | m
    · have hp : s1.polls = s.polls + 1 := by
        cases o : obs s.polls with
        | perr => rw [o] at ho; simp [pollStep] at ho
        | ra calls =>
          rw [o] at ho
          simp only [pollStep] at ho
          split_ifs at ho <;> (cases ho; rfl)
        | st status =>
          rw [o] at ho
          simp only [pollStep] at ho
          split_ifs at ho <;> first
            | (cases ho; rfl)
            | exact absurd ho (by simp)
      simp only
      calc (pollLoop obs f s1).1.polls ≤ s1.polls + f := ih s1
        _ ≤ s.polls + (f + 1) := by omega
    · have hp : s1.polls ≤ s.polls + 1 := by
        cases o : obs s.polls with
        | perr => rw [o] at ho; simp [pollStep] at ho
        | ra calls =>
          rw [o] at ho
          simp only [pollStep] at ho
          split_ifs at ho <;> simp at ho
        | st status =>
          rw [o] at ho
          simp only [pollStep] at ho
          split_ifs at ho <;> first
            | (cases ho; simp)
            | exact absurd ho (by simp)
      simp only
      omega
    · simp only
      omega

theorem pollLoop_budget (obs : Nat → PollObs) :
    ∀ (fuel : Nat) (s : PollState),
      (∀ i, s.polls ≤ i → i < s.polls + fuel →
        obs i ≠ .st "completed" ∧ obs i ≠ .perr) →
      (pollLoop obs fuel s).2 = .budgetExhausted
        ∧ (pollLoop obs fuel s).1.polls = s.polls + fuel := by
  intro fuel
  induction fuel with
  | zero => intro s _; simp [pollLoop]
  | succ f ih =>
    intro s hrange
    obtain ⟨hc, hp⟩ := hrange s.polls (le_refl _) (by omega)
    obtain ⟨s1, hstep, hpolls⟩ := pollStep_next_of_benign s (obs s.polls) hc hp
    rw [pollLoop, hstep]
    have := ih s1 (by
      intro i hi1 hi2
      rw [hpolls] at hi1 hi2
      exact hrange i (by omega) (by omega))
    rw [hpolls] at this
    exact ⟨this.1, by rw [this.2]; omega⟩

theorem pollLoop_completed (obs : Nat → PollObs) :
    ∀ (k fuel : Nat) (s : PollState), k < fuel →
      obs (s.polls + k) = .st "completed" →
      (∀ i, s.polls ≤ i → i < s.polls + k →
        obs i ≠ .st "completed" ∧ obs i ≠ .perr) →
      (pollLoop obs fuel s).2 = .completedExit
        ∧ (pollLoop obs fuel s).1.polls = s.polls + k + 1 := by
  intro k
  induction k with
  | zero =>
    intro fuel s hk hobs _
    match fuel, hk with
    | f + 1, _ =>
      rw [pollLoop]
      have : obs s.polls = .st "completed" := by simpa using hobs
      rw [this]
      simp [pollStep]
  | succ k ih =>
    intro fuel s hk hobs hrange
    match fuel, hk with
    | f + 1, hk =>
      obtain ⟨hc, hp⟩ := hrange s.polls (le_refl _) (by omega)
      obtain ⟨s1, hstep, hpolls⟩ := pollStep_next_of_benign s (obs s.polls) hc hp
      rw [pollLoop, hstep]
      have := ih f s1 (by omega)
        (by rw [hpolls]; rw [show s.polls + 1 + k = s.polls + (k + 1) by omega]; exact hobs)
        (by
          intro i hi1 hi2
          rw [hpolls] at hi1 hi2
          exact hrange i (by omega) (by omega))
      rw [hpolls] at this
      exact ⟨this.1, by rw [this.2]; omega⟩

/-- C6: the poll loop performs at most 60 polls; when the `k`-th poll
(`k < 60`) observes `completed` after only benign observations, the loop
stops immediately after exactly `k + 1` polls; and when 60 polls pass
without `completed` or a transport error, the loop exits by budget
exhaustion and the orchestrator proceeds to reply extraction instead of
blocking. -/
theorem poll_loop_bounded_stops_on_completed (obs : Nat → PollObs) :
    (runPollLoop obs).1.polls ≤ 60
    ∧ (∀ k, k < 60 → obs k = .st "completed" →
        (∀ i, i < k → obs i ≠ .st "completed" ∧ obs i ≠ .perr) →
        (runPollLoop obs).2 = .completedExit ∧ (runPollLoop obs).1.polls = k + 1)
    ∧ ((∀ i, i < 60 → obs i ≠ .st "completed" ∧ obs i ≠ .perr) →
        (runPollLoop obs).2 = .budgetExhausted ∧ (runPollLoop obs).1.polls = 60) := by
  refine ⟨?_, ?_, ?_⟩
  · simpa [initPoll] using pollLoop_polls_le obs 60 initPoll
  · intro k hk hobs hbenign
    have := pollLoop_completed obs k 60 initPoll hk
      (by simpa [initPoll] using hobs)
      (by intro i hi1 hi2; exact hbenign i (by simpa [initPoll] using hi2))
    simpa [runPollLoop, initPoll] using this
  · intro hbenign
    have := pollLoop_budget obs 60 initPoll
      (by intro i hi1 hi2; exact hbenign i (by simpa [initPoll] using hi2))
    simpa [runPollLoop, initPoll] using this

/-- C6 witness: with `completed` observed on the 4th poll (index 3), the
loop stops after exactly 4 polls rather than using the whole budget. -/
theorem poll_loop_bounded_stops_on_completed_witness :
    (runPollLoop (fun i => if i < 3 then .st "in_progress" else .st "completed")).2
        = .completedExit
    ∧ (runPollLoop (fun i => if i < 3 then .st "in_progress" else .st "completed")).1.polls
        = 3 + 1 :=
  (poll_loop_bounded_stops_on_completed
      (fun i => if i < 3 then .st "in_progress" else .st "completed")).2.1 3
    (by omega) (by decide)
    (by intro i hi; constructor <;> (simp only [if_pos hi]; decide))

/-- C3: when a poll observes a `requires_action` state whose tool-call
signature equals `lastToolCallSignature` while `submittedToolOutputs` is
still set, the loop submits nothing and merely re-polls (state unchanged
except the poll counter); and across two consecutive polls of the same
outstanding calls, the outputs are submitted exactly once. -/
theorem tool_outputs_never_resubmitted_for_same_signature :
    (∀ (s : PollState) (calls : List (String × Bool)), calls ≠ [] →
        s.submittedToolOutputs = true → sigOf calls = s.lastToolCallSignature →
        pollStep s (.ra calls) = .next { s with polls := s.polls + 1 })
    ∧ (∀ (s : PollState) (calls : List (String × Bool)), calls ≠ [] →
        knownOutputs calls ≠ [] →
        ¬(sigOf calls = s.lastToolCallSignature ∧ s.submittedToolOutputs = true) →
        pollStep s (.ra calls)
          = .next { lastToolCallSignature := sigOf calls, submittedToolOutputs := true,
                    subs := s.subs ++ [knownOutputs calls], polls := s.polls + 1 }
        ∧ pollStep { lastToolCallSignature := sigOf calls, submittedToolOutputs := true,
                     subs := s.subs ++ [knownOutputs calls], polls := s.polls + 1 }
            (.ra calls)
          = .next { lastToolCallSignature := sigOf calls, submittedToolOutputs := true,
                    subs := s.subs ++ [knownOutputs calls], polls := s.polls + 1 + 1 }) := by
  constructor
  · intro s calls hne hsub hsig
    simp only [pollStep]
    rw [if_pos hne, if_pos ⟨hsig, hsub⟩]
  · intro s calls hne houts hguard
    constructor
    · simp only [pollStep]
      rw [if_pos hne, if_neg (by simpa using hguard), if_pos houts]
    · simp only [pollStep]
      rw [if_pos hne, if_pos (by simp)]

/-- C3 witness: the signature `call_A,call_B` already submitted and pending
is observed again; the step submits nothing and only advances the poll
counter. -/
theorem tool_outputs_never_resubmitted_for_same_signature_witness :
    pollStep
        { lastToolCallSignature := "call_A,call_B", submittedToolOutputs := true,
          subs := [["call_A"]], polls := 5 }
        (.ra [("call_A", true), ("call_B", false)])
      = .next { lastToolCallSignature := "call_A,call_B", submittedToolOutputs := true,
                subs := [["call_A"]], polls := 6 } :=
  tool_outputs_never_resubmitted_for_same_signature.1 _ _ (by decide) rfl rfl

/-! ### Active-run conflict resolution at run creation (`main.go` 517–570)

The parsed run-creation response is a triple of the run id and the error's
type and message.  The HTTP cancel and retry calls are abstracted by two
transport oracles (`cancelOk`, `retryOk`: whether `client.Do` returned
without transport error) and by the parsed response `retry` of the retried
creation. -/

structure RunResp where
  id : String
  errType : String
  errMsg : String
deriving DecidableEq

/-- Embedding of Go `strings.TrimSuffix(w, ".")`. -/
def trimDotSuffix (w : List Char) : List Char :=
  if w.getLast? = some '.' then w.dropLast else w

/-- Extraction of the conflicting run id from the error text (`main.go`
534–537): the first whitespace-separated word starting with `run_`, with a
trailing period removed. -/
def extractRunId (msg : String) : Option String :=
  match (goFields msg.data).find? (fun w => isPrefOf "run_".data w) with
  | some w => some (String.mk (trimDotSuffix w))
  | none => none

/-- Embedding of the conflict-resolution block (`main.go` 527–565).  Result:
the run response the orchestrator continues with, the run ids that a cancel
request was issued for, and the number of retried creation attempts. -/
def handleActiveRunConflict (first : RunResp) (cancelOk retryOk : Bool)
    (retry : RunResp) : RunResp × List String × Nat :=
  if first.errType = "invalid_request_error" ∧ first.id = "" then
    if containsSub first.errMsg.data "already has an active run".data then
      match extractRunId first.errMsg with
      | some rid =>
        if cancelOk then
          if retryOk then (retry, [rid], 1) else (first, [rid], 1)
        else (first, [rid], 0)
      | none => (first, [], 0)
    else (first, [], 0)
  else (first, [], 0)

/-- Outcome of the run-creation stage after conflict handling (`main.go`
567–570): an empty id means the turn fails with "Failed to start run.". -/
def runCreationOutcome (first : RunResp) (cancelOk retryOk : Bool)
    (retry : RunResp) : Except String String :=
  let r := (handleActiveRunConflict first cancelOk retryOk retry).1
  if r.id = "" then Except.error "Failed to start run." else Except.ok r.id

/-- C5: when run creation fails with an `already has an active run` error
carrying a `run_…` identifier and the cancel and retry requests go through,
the orchestrator cancels exactly the extracted conflicting run, retries run
creation exactly once (never more, whatever the transports do), and the
turn reports "Failed to start run." precisely when the retried creation
also fails to yield a run id. -/
theorem active_run_conflict_cancel_retry_once
    (first retry : RunResp) (rid : String)
    (htype : first.errType = "invalid_request_error") (hid : first.id = "")
    (hmsg : containsSub first.errMsg.data "already has an active run".data = true)
    (hex : extractRunId first.errMsg = some rid) :
    handleActiveRunConflict first true true retry = (retry, [rid], 1)
    ∧ (∀ (f : RunResp) (cOk rOk : Bool) (rr : RunResp),
        (handleActiveRunConflict f cOk rOk rr).2.2 ≤ 1)
    ∧ (runCreationOutcome first true true retry
        = if retry.id = ""
          then Except.error "Failed to start run." else Except.ok retry.id) := by
  have hmain : handleActiveRunConflict first true true retry = (retry, [rid], 1) := by
    rw [handleActiveRunConflict, if_pos ⟨htype, hid⟩, if_pos hmsg, hex]
    rfl
  refine ⟨hmain, ?_, ?_⟩
  · intro f cOk rOk rr
    rw [handleActiveRunConflict]
    split_ifs <;> first
      | omega
      | (rcases extractRunId f.errMsg with _ | w <;> simp <;> split_ifs <;> simp)
  · rw [runCreationOutcome, hmain]

/-- C5 witness: the error text `Thread thread_X already has an active run
run_R7abc.` yields the cancellation of `run_R7abc`, one retry, and the
retried run id is adopted. -/
theorem active_run_conflict_cancel_retry_once_witness :
    handleActiveRunConflict
        { id := "", errType := "invalid_request_error",
          errMsg := "Thread thread_X already has an active run run_R7abc." }
        true true { id := "run_new1", errType := "", errMsg := "" }
      = ({ id := "run_new1", errType := "", errMsg := "" }, ["run_R7abc"], 1) :=
  (active_run_conflict_cancel_retry_once
      { id := "", errType := "invalid_request_error",
        errMsg := "Thread thread_X already has an active run run_R7abc." }
      { id := "run_new1", errType := "", errMsg := "" }
      "run_R7abc" rfl rfl (by decide) (by decide)).1

/-! ### Session Registry (`userThreadMap`, `main.go` 368–399)

The code takes `userThreadLock` only around the map read (368–370) and
around the map write (396–398); the remote thread creation (372–395)
happens with the lock released.  Each caller is therefore a three-step
program — atomic locked read, unlocked remote create, atomic locked
write — and steps of concurrent callers may interleave arbitrarily.  The
remote "create thread" collaborator is modelled as a supply of fresh,
distinct, non-empty session identifiers. -/

structure RegState where
  userThreadMap : List (String × String)
  freshCtr : Nat
  createdSessions : List String
deriving DecidableEq

/-- Map lookup; the most recent binding for a key wins (Go map overwrite
semantics under `setThread`). -/
def lookupThread : List (String × String) → String → Option String
  | [], _ => none
  | (k, v) :: rest, u => if k = u then some v else lookupThread rest u

/-- Map assignment `userThreadMap[userId] = threadId`. -/
def setThread (m : List (String × String)) (u tid : String) :
    List (String × String) :=
  (u, tid) :: m

/-- The remote side hands out distinct fresh thread identifiers. -/
def freshSession (n : Nat) : String := "session_" ++ Nat.repr n

inductive CallerState where
  | notStarted
  | atCreate
  | atWrite (tid : String)
  | finished (tid : String)
deriving DecidableEq

/-- One atomic step of a `getAssistantResponse` caller resolving the
session for user `u`: locked read of `userThreadMap` (368–371), then —
only on a miss — the unlocked remote creation (372–395), then the locked
write-back (396–398). -/
def callerStep (u : String) (g : RegState) (c : CallerState) :
    RegState × CallerState :=
  match c with
  | .notStarted =>
    match lookupThread g.userThreadMap u with
    | some tid => (g, .finished tid)
    | none => (g, .atCreate)
  | .atCreate =>
    let tid := freshSession g.freshCtr
    ({ g with freshCtr := g.freshCtr + 1,
              createdSessions := g.createdSessions ++ [tid] }, .atWrite tid)
  | .atWrite tid =>
    ({ g with userThreadMap := setThread g.userThreadMap u tid }, .finished tid)
  | .finished tid => (g, .finished tid)

/-- Run two callers (for users `uA`, `uB`) under a schedule: `true` steps
caller A, `false` steps caller B. -/
def runTwo (uA uB : String) (sched : List Bool) :
    RegState × CallerState × CallerState :=
  sched.foldl
    (fun acc pick =>
      if pick then
        let r := callerStep uA acc.1 acc.2.1
        (r.1, r.2, acc.2.2)
      else
        let r := callerStep uB acc.1 acc.2.2
        (r.1, acc.2.1, r.2))
    ({ userThreadMap := [], freshCtr := 0, createdSessions := [] },
      CallerState.notStarted, CallerState.notStarted)

/-- C4 counterexample: with both callers working for the same user "U", the
interleaving read-A, read-B, create-A, write-A, create-B, write-B makes the
process create two remote sessions for one user and leaves the two callers
holding different session identifiers — the map read and write are each
locked, but the creation between them is not, so the claimed mutual
exclusion does not hold. -/
theorem session_registry_concurrent_duplicate_creation :
    (runTwo "U" "U" [true, false, true, true, false, false]).1.createdSessions
        = ["session_0", "session_1"]
    ∧ (runTwo "U" "U" [true, false, true, true, false, false]).2.1
        = CallerState.finished "session_0"
    ∧ (runTwo "U" "U" [true, false, true, true, false, false]).2.2
        = CallerState.finished "session_1"
    ∧ lookupThread
        (runTwo "U" "U" [true, false, true, true, false, false]).1.userThreadMap "U"
        = some "session_1" := by
  refine ⟨?_, ?_, ?_, ?_⟩ <;> decide

/-- C4 (amended): the registry keeps one session per user against
sequential (non-overlapping) callers: a stored identifier is returned
without a remote creation, a second caller for the same user after the
first finished reuses the stored session and only one session is ever
created, and two different users end with two distinct sessions of their
own — but concurrent same-user callers may duplicate creation, as the
counterexample shows. -/
theorem session_registry_stable_for_sequential_callers
    (uA uB : String) (hne : uA ≠ uB) :
    (∀ (g : RegState) (tid : String),
        lookupThread g.userThreadMap uA = some tid →
        callerStep uA g .notStarted = (g, .finished tid))
    ∧ (runTwo uA uA [true, true, true, false]).1.createdSessions = ["session_0"]
    ∧ (runTwo uA uA [true, true, true, false]).2.1 = CallerState.finished "session_0"
    ∧ (runTwo uA uA [true, true, true, false]).2.2 = CallerState.finished "session_0"
    ∧ (runTwo uA uB [true, true, true, false, false, false]).2.1
        = CallerState.finished "session_0"
    ∧ (runTwo uA uB [true, true, true, false, false, false]).2.2
        = CallerState.finished "session_1"
    ∧ "session_0" ≠ "session_1" := by
  refine ⟨?_, ?_, ?_, ?_, ?_, ?_, by decide⟩
  · intro g tid h
    rw [callerStep, h]
  · simp [runTwo, callerStep, lookupThread, setThread, freshSession] <;> rfl
  · simp [runTwo, callerStep, lookupThread, setThread, freshSession] <;> rfl
  · simp [runTwo, callerStep, lookupThread, setThread, freshSession] <;> rfl
  · simp [runTwo, callerStep, lookupThread, setThread, freshSession, hne] <;> rfl
  · have hne2 : uA ≠ uB := hne
    simp [runTwo, callerStep, lookupThread, setThread, freshSession, hne2] <;> rfl

/-- C4 witness: concrete distinct users "U1" and "U2" run sequentially; each
ends with its own distinct session. -/
theorem session_registry_stable_for_sequential_callers_witness :
    (runTwo "U1" "U2" [true, true, true, false, false, false]).2.1
        = CallerState.finished "session_0"
    ∧ (runTwo "U1" "U2" [true, true, true, false, false, false]).2.2
        = CallerState.finished "session_1" :=
  ⟨(session_registry_stable_for_sequential_callers "U1" "U2" (by decide)).2.2.2.2.1,
   (session_registry_stable_for_sequential_callers "U1" "U2" (by decide)).2.2.2.2.2.1⟩

/-! ### Webhook endpoint (`POST /webhook`, `main.go` 175–248)

JSON decoding of the request body (`json.Unmarshal` into `LineEvent`) is
wire-level parsing and out of the engine's scope; it is abstracted as
`Option (List LEvent)`: `none` when unmarshalling fails, `some events`
otherwise.  `getLineImageURL` is an external collaborator abstracted by an
oracle from message id to an optional data URL.  The handler only appends
to buffers and (re)arms timers — the status it returns never depends on
the assistant, whose work happens later in the timer callback. -/

structure LEvent where
  type : String
  replyToken : String
  userId : String
  msgType : String
  text : String
  msgId : String
deriving DecidableEq

/-- The buffered content one event contributes (`main.go` 180–205): a text
message buffers its text; an image message buffers the data URL (or the
placeholder when retrieval fails); every other message type — and every
non-message event — is skipped. -/
def eventContent (imgOracle : String → Option String) (e : LEvent) :
    Option (String × String) :=
  if e.type = "message" then
    if e.msgType = "text" then some (e.userId, e.text)
    else if e.msgType = "image" then
      match imgOracle e.msgId with
      | some dataURL => some (e.userId, "ลูกค้าส่งรูปภาพ: " ++ dataURL)
      | none => some (e.userId, "ได้รับรูปภาพจากลูกค้า (ไม่สามารถแสดงได้)")
    else none
  else none

/-- The `POST /webhook` handler (`main.go` 175–248): HTTP status and the
`(user, content)` pairs appended to `userMsgBuffer`, in order. -/
def webhookHandler (parsed : Option (List LEvent))
    (imgOracle : String → Option String) : Nat × List (String × String) :=
  match parsed with
  | none => (400, [])
  | some evs =>
    (200, evs.foldl
      (fun acc e =>
        match eventContent imgOracle e with
        | some p => acc ++ [p]
        | none => acc) [])

theorem webhook_foldl_filterMap (imgOracle : String → Option String) :
    ∀ (evs : List LEvent) (acc : List (String × String)),
      evs.foldl
        (fun acc e =>
          match eventContent imgOracle e with
          | some p => acc ++ [p]
          | none => acc) acc
        = acc ++ evs.filterMap (eventContent imgOracle) := by
  intro evs
  induction evs with
  | nil => intro acc; simp
  | cons e rest ih =>
    intro acc
    rw [List.foldl_cons, List.filterMap_cons]
    cases h : eventContent imgOracle e with
    | some p => rw [ih]; simp
    | none => rw [ih]

/-- C7: the endpoint answers 400 exactly when the body fails to decode; any
decoded body is answered 200 with its events accepted for buffering (the
buffered contents are exactly the per-event contributions, in order, and
the status is computed without consulting the assistant); events whose
message type is neither text nor image, and non-message events, are
ignored. -/
theorem webhook_bad_request_iff_malformed
    (parsed : Option (List LEvent)) (imgOracle : String → Option String) :
    ((webhookHandler parsed imgOracle).1 = 400 ↔ parsed = none)
    ∧ (∀ evs, parsed = some evs →
        (webhookHandler parsed imgOracle).1 = 200
        ∧ (webhookHandler parsed imgOracle).2
            = evs.filterMap (eventContent imgOracle))
    ∧ (∀ (evs : List LEvent) (e : LEvent),
        (e.type ≠ "message" ∨ (e.msgType ≠ "text" ∧ e.msgType ≠ "image")) →
        webhookHandler (some (evs ++ [e])) imgOracle
          = webhookHandler (some evs) imgOracle) := by
  refine ⟨?_, ?_, ?_⟩
  · cases parsed with
    | none => simp [webhookHandler]
    | some evs => simp [webhookHandler]
  · intro evs hp
    subst hp
    exact ⟨rfl, by simpa using webhook_foldl_filterMap imgOracle evs []⟩
  · intro evs e he
    have hnone : eventContent imgOracle e = none := by
      rcases he with h | ⟨h1, h2⟩
      · simp [eventContent, h]
      · simp [eventContent, h1, h2]
    simp only [webhookHandler]
    rw [webhook_foldl_filterMap imgOracle (evs ++ [e]) [],
      webhook_foldl_filterMap imgOracle evs []]
    simp [hnone]

/-- C7 witness: an undecodable body yields status 400; a decoded body with
one text event, one sticker event and one non-message event yields 200 and
buffers only the text. -/
theorem webhook_bad_request_iff_malformed_witness :
    (webhookHandler none (fun _ => none)).1 = 400
    ∧ (webhookHandler
        (some [{ type := "message", replyToken := "rt", userId := "U",
                 msgType := "text", text := "hello", msgId := "" },
               { type := "message", replyToken := "rt", userId := "U",
                 msgType := "sticker", text := "", msgId := "" },
               { type := "follow", replyToken := "rt", userId := "U",
                 msgType := "", text := "", msgId := "" }])
        (fun _ => none)).2
      = [("U", "hello")] :=
  ⟨(webhook_bad_request_iff_malformed none (fun _ => none)).1.mpr rfl,
   ((webhook_bad_request_iff_malformed _ (fun _ => none)).2.1 _ rfl).2⟩

/-! ### Reply extraction and delivery (`main.go` 849–1035, 1845–1878)

After the poll loop, the thread's message list is scanned from the most
recent entry; the pricing fallback (`extractAndProcessPricingJSON`) and the
`tool_calls` slot-summary sub-flow perform their own network work and are
abstracted as oracles.  When no branch produces a reply the function falls
off the loop and returns the empty string (`main.go` 1034), and
`replyToLine` sends nothing for an empty message (1845–1849). -/

structure ThreadMsg where
  role : String
  content : List (String × String)
deriving DecidableEq

/-- Embedding of the extraction loop (`main.go` 872–905 with the fall-off
return at 1034): scan for the first assistant entry whose first content
part yields a reply.  `pricing` abstracts `extractAndProcessPricingJSON`
(879–886), `toolFlow` the `tool_calls` slot-summary sub-flow (907–1031,
`none` when that flow falls through).  The caching side effect of 888–896
does not alter the returned value and is covered by `replyDecision`. -/
def extractReply (pricing : String → String) (toolFlow : ThreadMsg → Option String) :
    List ThreadMsg → String
  | [] => ""
  | m :: rest =>
    if m.role = "assistant" ∧ m.content ≠ [] then
      match m.content.head? with
      | some (ctype, text) =>
        if ctype = "text" then
          if containsSub text.data "service_type".data
              ∧ containsSub text.data "item_type".data
              ∧ pricing text ≠ "" then pricing text
          else if text ≠ "" then text
          else extractReply pricing toolFlow rest
        else if ctype = "tool_calls" then
          match toolFlow m with
          | some r => r
          | none => extractReply pricing toolFlow rest
        else extractReply pricing toolFlow rest
      | none => extractReply pricing toolFlow rest
    else extractReply pricing toolFlow rest

/-- Embedding of `replyToLine` (`main.go` 1845–1878): `some text` is a call
of the reply API carrying `text`, `none` means no reply is sent at all —
which happens for an empty message (1846–1849) and for a missing channel
token (1851–1855). -/
def replyToLine (channelToken message : String) : Option String :=
  if message = "" then none
  else if channelToken = "" then none
  else some message

/-- C8 counterexample: a turn whose thread holds no assistant text entry
(here: only the user's own message) extracts the empty reply, and
`replyToLine` then sends nothing — the user gets silence, contradicting the
claim that every failure path delivers a non-empty reply. -/
theorem turn_can_end_in_silence :
    extractReply (fun _ => "") (fun _ => none)
        [{ role := "user", content := [("text", "สวัสดี")] }] = ""
    ∧ replyToLine "CHANNEL_TOKEN"
        (extractReply (fun _ => "") (fun _ => none)
          [{ role := "user", content := [("text", "สวัสดี")] }]) = none := by
  exact ⟨rfl, rfl⟩

/-- The fixed reply strings returned on the explicit failure paths of
`getAssistantResponse` (`main.go` 364, 383, 394, 446, 457, 510, 569, 584,
856, 933, 952, 969, 982, 1002). -/
def failureReplies : List String :=
  ["ขออภัย ระบบมีปัญหาชั่วคราว กรุณาลองใหม่อีกครั้งหรือติดต่อเจ้าหน้าที่",
   "ขออภัย ระบบมีปัญหาชั่วคราว กรุณาลองใหม่อีกครั้ง",
   "Failed to create thread.",
   "Error sending message to thread.",
   "OPENAI_ASSISTANT_ID not set.",
   "Error running assistant.",
   "Failed to start run.",
   "Error polling run status.",
   "Error getting messages.",
   "Error calling Google Apps Script.",
   "Error sending slot info to GPT.",
   "Error running assistant for slot summary.",
   "Error polling run status for slot summary.",
   "Error getting slot summary from GPT."]

/-- C8 (amended): every explicit failure path of turn processing returns a
fixed non-empty reply which `replyToLine` delivers, but the
no-assistant-text path yields the empty reply and `replyToLine` delivers
nothing for it — silence is possible on exactly that path. -/
theorem failure_paths_reply_nonempty_except_empty_extraction
    (tok : String) (htok : tok ≠ "") :
    (∀ r ∈ failureReplies, r ≠ "" ∧ replyToLine tok r = some r)
    ∧ (∀ (pricing : String → String) (toolFlow : ThreadMsg → Option String)
        (msgs : List ThreadMsg),
        extractReply pricing toolFlow msgs = "" →
        replyToLine tok (extractReply pricing toolFlow msgs) = none) := by
  constructor
  · intro r hr
    fin_cases hr <;>
      exact ⟨by decide, by rw [replyToLine, if_neg (by decide), if_neg htok]⟩
  · intro pricing toolFlow msgs hempty
    rw [hempty, replyToLine, if_pos rfl]

/-- C8 witness: with a configured channel token, the "Failed to start run."
failure reply is non-empty and delivered, while the empty extraction of an
assistant-less thread is not delivered. -/
theorem failure_paths_reply_nonempty_except_empty_extraction_witness :
    replyToLine "CHANNEL_TOKEN" "Failed to start run." = some "Failed to start run."
    ∧ replyToLine "CHANNEL_TOKEN"
        (extractReply (fun _ => "") (fun _ => none) []) = none :=
  ⟨((failure_paths_reply_nonempty_except_empty_extraction "CHANNEL_TOKEN"
      (by decide)).1 "Failed to start run." (by decide)).2,
   (failure_paths_reply_nonempty_except_empty_extraction "CHANNEL_TOKEN"
      (by decide)).2 (fun _ => "") (fun _ => none) [] rfl⟩

/-! ### One ask against the cache and the branch-dependent cache write

`getAssistantResponse` has three reply-return paths out of the extraction
loop: the pricing fallback `return pricingResult` (`main.go` 884), the
plain-text returns (898/903) — the only place the cache is written (891) —
and the slot-summary subflow `return reply` (1023); falling off the loop
returns the empty string (1034) without a write.  `extractReplyUpdate`
is the extraction loop of `extractReply` paired with the resulting
`userLastQAMap` entry, with the write placed exactly at the plain-text
branch. -/

/-- The extraction loop (`main.go` 872–905 / 1034) together with the cache
entry for `q` after the turn: the pricing-fallback return (884) and the
`tool_calls` subflow return (1023) leave the cache untouched; only the
plain-text branch applies the cache decision of 888–896. -/
def extractReplyUpdate (pricing : String → String) (toolFlow : ThreadMsg → Option String)
    (qa : Option (String × String)) (q : String) :
    List ThreadMsg → String × Option (String × String)
  | [] => ("", qa)
  | m :: rest =>
    if m.role = "assistant" ∧ m.content ≠ [] then
      match m.content.head? with
      | some (ctype, text) =>
        if ctype = "text" then
          if containsSub text.data "service_type".data
              ∧ containsSub text.data "item_type".data
              ∧ pricing text ≠ "" then (pricing text, qa)
          else if text ≠ "" then (text, cacheWrite qa q text)
          else extractReplyUpdate pricing toolFlow qa q rest
        else if ctype = "tool_calls" then
          match toolFlow m with
          | some r => (r, qa)
          | none => extractReplyUpdate pricing toolFlow qa q rest
        else extractReplyUpdate pricing toolFlow qa q rest
      | none => extractReplyUpdate pricing toolFlow qa q rest
    else extractReplyUpdate pricing toolFlow qa q rest

theorem extractReplyUpdate_fst (pricing : String → String)
    (toolFlow : ThreadMsg → Option String) (qa : Option (String × String))
    (q : String) : ∀ msgs : List ThreadMsg,
      (extractReplyUpdate pricing toolFlow qa q msgs).1
        = extractReply pricing toolFlow msgs := by
  intro msgs
  induction msgs with
  | nil => rfl
  | cons m rest ih =>
    by_cases hg : m.role = "assistant" ∧ m.content ≠ []
    · simp only [extractReplyUpdate, extractReply, if_pos hg]
      cases hh : m.content.head? with
      | none => exact ih
      | some pr =>
        obtain ⟨ctype, text⟩ := pr
        dsimp only
        by_cases h1 : ctype = "text"
        · rw [if_pos h1, if_pos h1]
          split_ifs with h2 h3
          · rfl
          · rfl
          · exact ih
        · rw [if_neg h1, if_neg h1]
          by_cases h4 : ctype = "tool_calls"
          · rw [if_pos h4, if_pos h4]
            cases ht : toolFlow m with
            | some r => rfl
            | none => exact ih
          · rw [if_neg h4, if_neg h4]
            exact ih
    · simp only [extractReplyUpdate, extractReply, if_neg hg]
      exact ih

structure AskOutcome where
  reply : String
  cache : Option (String × String)
  usedRemote : Bool
deriving DecidableEq

/-- One call of `getAssistantResponse` for question `q`: on a cache hit
(`main.go` 347–359) the cached answer is returned without any remote
traffic; otherwise the run is driven and the reply extracted from the
resulting thread messages `msgs`, with the cache updated only where the
source updates it (`extractReplyUpdate`). -/
def askTurn (pricing : String → String) (toolFlow : ThreadMsg → Option String)
    (qa : Option (String × String)) (q : String) (msgs : List ThreadMsg) :
    AskOutcome :=
  match readCache qa q with
  | some a => { reply := a, cache := qa, usedRemote := false }
  | none =>
    { reply := (extractReplyUpdate pricing toolFlow qa q msgs).1,
      cache := (extractReplyUpdate pricing toolFlow qa q msgs).2,
      usedRemote := true }

/-- Concrete pricing-fallback scenario: the assistant answers in data form,
the fallback computes a clean pricing string. -/
def demoPricing : String → String :=
  fun _ => "ที่นอน 6 ฟุต บริการกำจัดไรฝุ่น ราคา 2500 บาทค่ะ"

def demoToolFlow : ThreadMsg → Option String := fun _ => none

def demoQ : String := "ราคาที่นอน 6 ฟุต"

def demoMsgs : List ThreadMsg :=
  [{ role := "assistant",
     content := [("text", "service_type: disinfection, item_type: mattress, size: 6ft")] }]

/-- C2 counterexample: a first ask answered through the pricing fallback
(`main.go` 884) yields a non-empty, non-error reply, yet the cache is not
written (the only cache write, 891, sits in the plain-text branch), so the
second identical ask contacts the remote assistant again — refuting
"cached second ask iff first answer clean". -/
theorem pricing_fallback_clean_reply_not_cached :
    (askTurn demoPricing demoToolFlow none demoQ demoMsgs).reply ≠ ""
    ∧ isErrorResponse (askTurn demoPricing demoToolFlow none demoQ demoMsgs).reply
        = false
    ∧ (askTurn demoPricing demoToolFlow none demoQ demoMsgs).cache = none
    ∧ (askTurn demoPricing demoToolFlow
        (askTurn demoPricing demoToolFlow none demoQ demoMsgs).cache
        demoQ demoMsgs).usedRemote = true := by
  refine ⟨by decide, by decide, by decide, by decide⟩

/-- C2 (amended): for a first ask that misses the cache, when its answer is
produced by the plain-text branch the second identical ask is served from
the cache without remote contact exactly when that answer is non-empty and
not error-classified (then the second answer equals the first; an
error-classified one forces a fresh remote attempt) — but an answer
returned through the pricing fallback or the `tool_calls` subflow is never
cached, and the second identical ask contacts the remote again even when
the answer is clean. -/
theorem duplicate_question_cached_only_from_text_branch
    (p : String → String) (t : ThreadMsg → Option String)
    (qa : Option (String × String)) (q : String) (m : ThreadMsg)
    (rest msgs2 : List ThreadMsg) (hmiss : readCache qa q = none) :
    (∀ t0 : String, m.role = "assistant" → m.content.head? = some ("text", t0) →
        ¬(containsSub t0.data "service_type".data = true
            ∧ containsSub t0.data "item_type".data = true ∧ p t0 ≠ "") →
        t0 ≠ "" →
        (askTurn p t qa q (m :: rest)).reply = t0
        ∧ ((askTurn p t (askTurn p t qa q (m :: rest)).cache q msgs2).usedRemote
              = false
            ↔ isErrorResponse t0 = false)
        ∧ (isErrorResponse t0 = false →
            (askTurn p t (askTurn p t qa q (m :: rest)).cache q msgs2).reply = t0)
        ∧ (isErrorResponse t0 = true →
            (askTurn p t (askTurn p t qa q (m :: rest)).cache q msgs2).usedRemote
              = true))
    ∧ (∀ t0 : String, m.role = "assistant" → m.content.head? = some ("text", t0) →
        containsSub t0.data "service_type".data = true →
        containsSub t0.data "item_type".data = true → p t0 ≠ "" →
        (askTurn p t qa q (m :: rest)).reply = p t0
        ∧ (askTurn p t qa q (m :: rest)).cache = qa
        ∧ (askTurn p t (askTurn p t qa q (m :: rest)).cache q msgs2).usedRemote
            = true)
    ∧ (∀ (c0 r : String), m.role = "assistant" →
        m.content.head? = some ("tool_calls", c0) → t m = some r →
        (askTurn p t qa q (m :: rest)).reply = r
        ∧ (askTurn p t qa q (m :: rest)).cache = qa
        ∧ (askTurn p t (askTurn p t qa q (m :: rest)).cache q msgs2).usedRemote
            = true) := by
  have hused : (askTurn p t qa q msgs2).usedRemote = true := by
    simp only [askTurn, hmiss]
  refine ⟨?_, ?_, ?_⟩
  · intro t0 hrole hhead hdet ht0
    have hne : m.content ≠ [] := by
      intro h
      rw [h] at hhead
      cases hhead
    have hx : extractReplyUpdate p t qa q (m :: rest) = (t0, cacheWrite qa q t0) := by
      simp only [extractReplyUpdate, hhead]
      rw [if_pos (And.intro hrole hne)]
      dsimp only
      rw [if_pos trivial]
      split_ifs with hc1
      · exact absurd hc1 hdet
      · rfl
    have ha1 : askTurn p t qa q (m :: rest)
        = { reply := t0, cache := cacheWrite qa q t0, usedRemote := true } := by
      simp only [askTurn, hmiss, hx]
    rw [ha1]
    dsimp only
    by_cases herr : isErrorResponse t0 = false
    · have hcw : cacheWrite qa q t0 = some (q, t0) := by
        rw [cacheWrite, replyDecision, if_pos (And.intro ht0 herr)]
      have hrc2 : readCache (some (q, t0)) q = some t0 := by
        rw [readCache]
        rw [if_pos ⟨rfl, ht0, herr⟩]
      have ha2 : askTurn p t (some (q, t0)) q msgs2
          = { reply := t0, cache := some (q, t0), usedRemote := false } := by
        rw [askTurn, hrc2]
      rw [hcw, ha2]
      refine ⟨rfl, ?_, ?_, ?_⟩
      · simp [herr]
      · intro _
        rfl
      · intro h
        rw [herr] at h
        cases h
    · have herr2 : isErrorResponse t0 = true := by
        revert herr
        cases isErrorResponse t0 <;> simp
      have hcw : cacheWrite qa q t0 = qa := by
        rw [cacheWrite, replyDecision, if_neg (by simp [herr2])]
        split <;> rfl
      rw [hcw]
      refine ⟨rfl, ?_, ?_, ?_⟩
      · constructor
        · intro hfalse
          rw [hused] at hfalse
          cases hfalse
        · intro hgood
          rw [herr2] at hgood
          cases hgood
      · intro hgood
        rw [herr2] at hgood
        cases hgood
      · intro _
        exact hused
  · intro t0 hrole hhead hsvc hitm hp
    have hne : m.content ≠ [] := by
      intro h
      rw [h] at hhead
      cases hhead
    have hx : extractReplyUpdate p t qa q (m :: rest) = (p t0, qa) := by
      simp only [extractReplyUpdate, hhead]
      rw [if_pos (And.intro hrole hne)]
      dsimp only
      rw [if_pos trivial]
      split_ifs with hc1 hc2
      · rfl
      · exact absurd (And.intro hsvc (And.intro hitm hp)) hc1
      · exact absurd (And.intro hsvc (And.intro hitm hp)) hc1
    have ha1 : askTurn p t qa q (m :: rest)
        = { reply := p t0, cache := qa, usedRemote := true } := by
      simp only [askTurn, hmiss, hx]
    rw [ha1]
    exact ⟨rfl, rfl, hused⟩
  · intro c0 r hrole hhead ht
    have hne : m.content ≠ [] := by
      intro h
      rw [h] at hhead
      cases hhead
    have hx : extractReplyUpdate p t qa q (m :: rest) = (r, qa) := by
      simp only [extractReplyUpdate, hhead, ht]
      rw [if_pos (And.intro hrole hne)]
      dsimp only
      rw [if_neg (by decide : ("tool_calls" : String) ≠ "text"), if_pos trivial]
    have ha1 : askTurn p t qa q (m :: rest)
        = { reply := r, cache := qa, usedRemote := true } := by
      simp only [askTurn, hmiss, hx]
    rw [ha1]
    exact ⟨rfl, rfl, hused⟩

/-- C2 witness: a first ask answered by the plain-text branch with a clean
reply; the repeat of the identical question is served from the cache
without remote contact. -/
theorem duplicate_question_cached_only_from_text_branch_witness :
    (askTurn (fun _ => "") (fun _ => none)
        (askTurn (fun _ => "") (fun _ => none) none "ราคาที่นอน 6 ฟุต"
          [{ role := "assistant",
             content := [("text", "ที่นอน 6 ฟุต ราคา 2500 บาทค่ะ")] }]).cache
        "ราคาที่นอน 6 ฟุต" []).usedRemote = false :=
  ((duplicate_question_cached_only_from_text_branch (fun _ => "") (fun _ => none)
      none "ราคาที่นอน 6 ฟุต"
      { role := "assistant", content := [("text", "ที่นอน 6 ฟุต ราคา 2500 บาทค่ะ")] }
      [] [] rfl).1 "ที่นอน 6 ฟุต ราคา 2500 บาทค่ะ" rfl rfl (by decide)
      (by decide)).2.1.mpr (by decide)

/-! ### Thousands separator (`formatNumber`, `main.go` 1460–1474)

`fmt.Sprintf("%d", n)` for a non-negative value is the plain decimal
representation, embedded as `Nat.repr` (the claim is about non-negative
inputs).  The loop `for i, r := range str` walks the ASCII digit string one
byte per rune, inserting a comma before position `i` whenever `i > 0` and
`(len(str)-i) % 3 == 0`; `insertCommasGo` is that loop with the byte index
made explicit.  `groupRight3` is the specification-side description —
"a comma every three digits counted from the right" — proved equal to the
loop. -/

/-- The comma-insertion loop of `formatNumber` (`main.go` 1466–1472): `len`
is `len(str)`, `i` the current index. -/
def insertCommasGo (len : Nat) : Nat → List Char → List Char
  | _, [] => []
  | i, c :: rest =>
    (if 0 < i ∧ (len - i) % 3 = 0 then [',', c] else [c]) ++
      insertCommasGo len (i + 1) rest

/-- Embedding of `formatNumber` (`main.go` 1460–1474) for non-negative
input. -/
def formatNumber (n : Nat) : String :=
  let str := Nat.repr n
  if str.length ≤ 3 then str
  else String.mk (insertCommasGo str.data.length 0 str.data)

/-- Specification-side right-to-left grouping: split the last three
characters off until at most three remain, joining the groups with commas. -/
def groupRight3 (l : List Char) : List Char :=
  if h : l.length ≤ 3 then l
  else groupRight3 (l.take (l.length - 3)) ++ ',' :: l.drop (l.length - 3)
termination_by l.length
decreasing_by
  simp_wf
  omega

theorem insertCommasGo_append (len : Nat) :
    ∀ (l1 l2 : List Char) (i : Nat),
      insertCommasGo len i (l1 ++ l2)
        = insertCommasGo len i l1 ++ insertCommasGo len (i + l1.length) l2 := by
  intro l1
  induction l1 with
  | nil => intro l2 i; simp [insertCommasGo]
  | cons c rest ih =>
    intro l2 i
    have h : i + (c :: rest).length = i + 1 + rest.length := by
      simp only [List.length_cons]
      omega
    rw [h]
    simp only [List.cons_append, insertCommasGo, List.append_assoc, List.append_eq]
    rw [ih l2 (i + 1)]

theorem insertCommasGo_pad (l : List Char) :
    ∀ (len1 i : Nat), i + l.length ≤ len1 →
      insertCommasGo (len1 + 3) i l = insertCommasGo len1 i l := by
  induction l with
  | nil => intro len1 i _; rfl
  | cons c rest ih =>
    intro len1 i hle
    have hi : i ≤ len1 := by simp at hle; omega
    have hmod : (len1 + 3 - i) % 3 = (len1 - i) % 3 := by
      have : len1 + 3 - i = (len1 - i) + 3 := by omega
      rw [this, Nat.add_mod_right]
    simp only [insertCommasGo, hmod]
    rw [ih len1 (i + 1) (by simp at hle ⊢; omega)]

theorem insertCommasGo_small (l : List Char) (h : l.length ≤ 3) :
    insertCommasGo l.length 0 l = l := by
  match l with
  | [] => rfl
  | [a] => rfl
  | [a, b] => rfl
  | [a, b, c] => rfl
  | a :: b :: c :: d :: rest => simp at h

theorem insertCommasGo_last3 (k : Nat) (hk : 0 < k) (x y z : Char) :
    insertCommasGo (k + 3) k [x, y, z] = ',' :: [x, y, z] := by
  have h1 : k + 3 - k = 3 := by omega
  have h2 : k + 3 - (k + 1) = 2 := by omega
  have h3 : k + 3 - (k + 1 + 1) = 1 := by omega
  simp [insertCommasGo, h1, h2, h3, hk]

theorem length_three_chars (m : List Char) (h : m.length = 3) :
    ∃ x y z, m = [x, y, z] := by
  match m with
  | [x, y, z] => exact ⟨x, y, z, rfl⟩
  | [] => simp at h
  | [_] => simp at h
  | [_, _] => simp at h
  | _ :: _ :: _ :: _ :: _ => simp at h

theorem insertCommas_eq_groupRight3 (l : List Char) :
    insertCommasGo l.length 0 l = groupRight3 l := by
  by_cases h : l.length ≤ 3
  · rw [groupRight3, dif_pos h]
    exact insertCommasGo_small l h
  · obtain ⟨k, hkL⟩ : ∃ k, l.length = k + 3 := ⟨l.length - 3, by omega⟩
    have hkpos : 0 < k := by omega
    have hk3 : l.length - 3 = k := by omega
    have hlen1 : (l.take k).length = k := by rw [List.length_take]; omega
    have hlen2 : (l.drop k).length = 3 := by rw [List.length_drop]; omega
    obtain ⟨x, y, z, hxyz⟩ := length_three_chars _ hlen2
    have happ : insertCommasGo l.length 0 l
        = insertCommasGo l.length 0 (l.take k)
          ++ insertCommasGo l.length (0 + (l.take k).length) (l.drop k) := by
      conv_lhs => rw [← List.take_append_drop k l]
      rw [insertCommasGo_append, List.take_append_drop]
    rw [happ, hxyz, hlen1, Nat.zero_add, hkL]
    rw [insertCommasGo_pad (l.take k) k 0 (by omega),
      insertCommasGo_last3 k hkpos]
    have hih := insertCommas_eq_groupRight3 (l.take k)
    rw [hlen1] at hih
    rw [hih]
    conv_rhs => rw [groupRight3]
    rw [dif_neg h, hk3, hxyz]
termination_by l.length
decreasing_by
  simp_wf
  omega

theorem groupRight3_filter (l : List Char) :
    (groupRight3 l).filter (fun c => c != ',') = l.filter (fun c => c != ',') := by
  by_cases h : l.length ≤ 3
  · rw [groupRight3, dif_pos h]
  · rw [groupRight3, dif_neg h, List.filter_append,
      groupRight3_filter (l.take (l.length - 3))]
    have hcm : (',' :: l.drop (l.length - 3)).filter (fun c => c != ',')
        = (l.drop (l.length - 3)).filter (fun c => c != ',') := by simp
    rw [hcm, ← List.filter_append, List.take_append_drop]
termination_by l.length
decreasing_by
  simp_wf
  omega

theorem toDigitsCore_mem (f : Nat) : ∀ (n : Nat) (l : List Char) (c : Char),
    c ∈ Nat.toDigitsCore 10 f n l → c ∈ l ∨ ∃ r, r < 10 ∧ c = Nat.digitChar r := by
  induction f with
  | zero =>
    intro n l c h
    simp only [Nat.toDigitsCore] at h
    exact Or.inl h
  | succ f ih =>
    intro n l c h
    simp only [Nat.toDigitsCore] at h
    by_cases hn : n / 10 = 0
    · rw [if_pos hn] at h
      rcases List.mem_cons.mp h with h1 | h1
      · exact Or.inr ⟨n % 10, Nat.mod_lt _ (by norm_num), h1⟩
      · exact Or.inl h1
    · rw [if_neg hn] at h
      rcases ih (n / 10) _ c h with h1 | h1
      · rcases List.mem_cons.mp h1 with h2 | h2
        · exact Or.inr ⟨n % 10, Nat.mod_lt _ (by norm_num), h2⟩
        · exact Or.inl h2
      · exact Or.inr h1

theorem repr_no_comma (n : Nat) : ',' ∉ (Nat.repr n).data := by
  intro h
  have hd : (Nat.repr n).data = Nat.toDigits 10 n := rfl
  rw [hd] at h
  rcases toDigitsCore_mem (n + 1) n [] ',' h with h1 | ⟨r, hr, h2⟩
  · exact absurd h1 (List.not_mem_nil _)
  · interval_cases r <;> exact absurd h2 (by decide)

theorem mk_data (s : String) : String.mk s.data = s := rfl

theorem repr_filter_self (n : Nat) :
    (Nat.repr n).data.filter (fun c => c != ',') = (Nat.repr n).data := by
  apply List.filter_eq_self.mpr
  intro c hc
  have : c ≠ ',' := fun he => repr_no_comma n (he ▸ hc)
  simpa using this

/-- C10: `formatNumber n` for a non-negative input is the decimal
representation of `n` with a comma every three digits counted from the
right (the loop equals the right-to-left grouping `groupRight3`), it is the
representation unchanged when it has at most three digits, and stripping
the commas recovers exactly the digits of `n` in order — none added, none
dropped. -/
theorem formatNumber_groups_thousands (n : Nat) :
    formatNumber n = String.mk (groupRight3 (Nat.repr n).data)
    ∧ ((Nat.repr n).length ≤ 3 → formatNumber n = Nat.repr n)
    ∧ (formatNumber n).data.filter (fun c => c != ',') = (Nat.repr n).data := by
  have hlen : (Nat.repr n).length = (Nat.repr n).data.length := rfl
  have hmain : formatNumber n = String.mk (groupRight3 (Nat.repr n).data) := by
    rw [formatNumber]
    by_cases h : (Nat.repr n).length ≤ 3
    · rw [if_pos h]
      rw [groupRight3, dif_pos (by rw [← hlen]; exact h), mk_data]
    · rw [if_neg h]
      have := insertCommas_eq_groupRight3 (Nat.repr n).data
      rw [this]
  refine ⟨hmain, ?_, ?_⟩
  · intro h
    rw [formatNumber, if_pos h]
  · rw [hmain]
    have : (String.mk (groupRight3 (Nat.repr n).data)).data
        = groupRight3 (Nat.repr n).data := rfl
    rw [this, groupRight3_filter, repr_filter_self]

/-- C10 witness: a three-digit value is unchanged and a seven-digit value
is grouped from the right. -/
theorem formatNumber_groups_thousands_witness :
    formatNumber 123 = Nat.repr 123
    ∧ formatNumber 1234567 = String.mk (groupRight3 (Nat.repr 1234567).data)
    ∧ formatNumber 1234567 = "1,234,567" :=
  ⟨(formatNumber_groups_thousands 123).2.1 (by decide),
   (formatNumber_groups_thousands 1234567).1,
   by decide⟩

end NCS
